import Mathlib

/-!
# Verification of the DS2482 OneWire driver module (`ds2482.py`)

A shallow embedding of the Zerynth `ds2482` module in Lean 4, together with
theorems settling the specification's claims about it.

Python strings are modelled as `List Char`, byte sequences (`bytes` /
`bytearray`) as `List Nat` with elements below 256, and exceptions as
`Except PyErr`.  The native 1-Wire primitives (declared with `@c_native`
against `csrc/*`, hence not part of the Python source) are modelled as
operations over an explicit transport trace, following the design
documentation of the module.
-/

/-- The Python exceptions that the embedded code can raise. -/
inductive PyErr where
  | typeError
  | valueError
  | indexError
deriving DecidableEq, Repr

/-- Python's `str.split(sep)` for a single-character separator `sep`:
splitting the empty string yields `[""]`, and every occurrence of `sep`
starts a new field, so `"a:b".split(":") = ["a", "b"]` and
`":".split(":") = ["", ""]`. -/
def pySplit (sep : Char) : List Char → List (List Char)
  | [] => [[]]
  | c :: rest =>
    match pySplit sep rest with
    | [] => if c = sep then [[], []] else [[c]]
    | f :: fs => if c = sep then [] :: f :: fs else (c :: f) :: fs

/-- Python's `sep.join(fields)` for a single-character separator. -/
def pyJoin (sep : Char) : List (List Char) → List Char
  | [] => []
  | [f] => f
  | f :: fs => f ++ sep :: pyJoin sep fs

/-- The lowercase hexadecimal digit for a value below 16
(`'0'`–`'9'`, `'a'`–`'f'`). -/
def hexDigit (n : Nat) : Char :=
  if n < 10 then Char.ofNat (48 + n) else Char.ofNat (87 + n)

/-- Hexadecimal digit string of a natural number, lowercase, no padding
and no sign: the digit string produced by the builtin `hex` with an empty
prefix argument (`hex(0,"") = "0"`, `hex(255,"") = "ff"`), following the
standard Python semantics of `hex` (most significant digit first, single
digit for values below 16). -/
def hexStr (n : Nat) : List Char :=
  if h : n < 16 then [hexDigit n]
  else hexStr (n / 16) ++ [hexDigit (n % 16)]
decreasing_by exact Nat.div_lt_self (by omega) (by omega)

/-- The Zerynth builtin `hex(x, p)`: the hexadecimal digits of `x`
preceded by the string `p` (the module calls it as `hex(y,"")`). -/
def hex (n : Nat) (p : List Char) : List Char :=
  p ++ hexStr n

/-- `b2s(serial)` from `ds2482.py`: each byte of `serial` converted to
hexadecimal with `hex(y,"")` and the pieces joined with `":"`. -/
def b2s (serial : List Nat) : List Char :=
  pyJoin ':' (serial.map (fun y => hex y []))

/-- The value of a hexadecimal digit character, `none` when the character
is not a hexadecimal digit (both cases are accepted, as by Python's
`int(y, 16)`). -/
def hexDigitVal (c : Char) : Option Nat :=
  if 48 ≤ c.toNat ∧ c.toNat ≤ 57 then some (c.toNat - 48)
  else if 97 ≤ c.toNat ∧ c.toNat ≤ 102 then some (c.toNat - 87)
  else if 65 ≤ c.toNat ∧ c.toNat ≤ 70 then some (c.toNat - 55)
  else none

/-- Accumulator loop of hexadecimal string parsing: fails on the first
non-hexdigit character. -/
def pyIntHexLoop : List Char → Nat → Except PyErr Nat
  | [], acc => .ok acc
  | c :: cs, acc =>
    match hexDigitVal c with
    | none => .error .valueError
    | some v => pyIntHexLoop cs (acc * 16 + v)

/-- The builtin `int(y, 16)` on the digit strings the module feeds it:
raises `ValueError` on the empty string and on any string holding a
non-hexdigit character, otherwise returns the value of the digits.
(The sign / whitespace / `0x`-prefixed forms Python's `int` also accepts
never arise from `b2s` output and are not modelled.) -/
def pyIntHex (cs : List Char) : Except PyErr Nat :=
  match cs with
  | [] => .error .valueError
  | _ :: _ => pyIntHexLoop cs 0

/-- Evaluation of a list comprehension `[f y for y in l]` over fallible
`f`: the first exception raised propagates. -/
def mapE (f : α → Except PyErr β) : List α → Except PyErr (List β)
  | [] => .ok []
  | a :: as =>
    match f a with
    | .error e => .error e
    | .ok b =>
      match mapE f as with
      | .error e => .error e
      | .ok bs => .ok (b :: bs)

/-- The builtin `bytes(x)` on a list of integers: raises `ValueError`
when an element is out of byte range, otherwise the byte sequence. -/
def pyBytes (xs : List Nat) : Except PyErr (List Nat) :=
  if xs.all (fun b => b < 256) then .ok xs else .error .valueError

/-- `s2b(serial)` from `ds2482.py`: split the string on `":"`, parse each
field with `int(y, 16)`, and build a `bytes` from the values.  Any
exception from `int` or `bytes` propagates; no field count or field width
check is performed. -/
def s2b (serial : List Char) : Except PyErr (List Nat) :=
  match mapE pyIntHex (pySplit ':' serial) with
  | .error e => .error e
  | .ok x => pyBytes x

/-- One step of the Dallas/Maxim 1-Wire CRC-8 over a single input bit:
reflected generator polynomial `0x8C`, bit 0 first.
Modelled from the spec: the checksum codec (`checksum8`) lives in the
native `csrc/*` sources, not in the Python file; the design documentation
describes it as the iterative 1-Wire/Dallas cyclic-redundancy computation,
degree 8, reflected, LSB first, seeded at 0. -/
def crc8Step (p : Nat × Nat) : Nat × Nat :=
  let crc := p.1
  let b := p.2
  let mix := (crc ^^^ b) &&& 1
  let crc1 := crc >>> 1
  (if mix = 1 then crc1 ^^^ 0x8C else crc1, b >>> 1)

/-- Dallas/Maxim CRC-8 update of the running checksum by one input byte:
eight `crc8Step` iterations. -/
def crc8Byte (crc b : Nat) : Nat :=
  (crc8Step (crc8Step (crc8Step (crc8Step
    (crc8Step (crc8Step (crc8Step (crc8Step (crc, b))))))))).1

/-- Modelled from the spec: `checksum8(bytes) -> byte`, the 1-Wire/Dallas
CRC-8 of a byte sequence, seeded at 0, processing each byte LSB first.
Implemented in the native `csrc/*` sources, absent from the Python file. -/
def checksum8 (bs : List Nat) : Nat :=
  bs.foldl crc8Byte 0

/-- An 8-byte ROM code whose trailing byte is the CRC-8 of the leading
seven bytes: the validity check the search algorithm applies to each
candidate identifier before adding it to the result set. -/
def validROM (id : List Nat) : Bool :=
  id.length == 8 && checksum8 (id.take 7) == id.getD 7 0

/-- Modelled from the spec: the native `_search_raw` (bound to
`_ow_search_all` over `csrc/*`) runs the discrepancy-tracking ROM search;
each pass assembles one 64-bit candidate identifier, validates its
checksum (the trailing byte against `checksum8` of the first 7 bytes) and
silently discards mismatches, adding only valid candidates to the result
set.  The bus interaction is abstracted as the list of candidates the
passes read off the bus; the validation filter is what the model keeps
concrete. -/
def searchRawNative (candidates : List (List Nat)) : List (List Nat) :=
  candidates.filter validROM

/-- One event observed by the transport underneath the native 1-Wire
primitives: a bus reset, a byte written, or a byte-read command. -/
inductive OWEvent where
  | reset
  | writeByte (b : Nat)
  | readByte
deriving DecidableEq, Repr

/-- The (simulated) 1-Wire bus the native primitives talk to: whether a
reset observes a presence pulse, and the stream of bytes successive read
operations return. -/
structure Bus where
  presence : Bool
  incoming : Nat → Nat

/-- The observable transport state threaded through the native
primitives: the trace of events issued so far and the position in the
incoming byte stream. -/
structure OWState where
  trace : List OWEvent
  rpos : Nat
deriving Repr

/-- Modelled from the spec: the native `_owreset` (`_ow_rr` over
`csrc/*`) issues the bus-reset command and returns whether a presence
pulse was observed. -/
def owreset (bus : Bus) (s : OWState) : Bool × OWState :=
  (bus.presence, { s with trace := s.trace ++ [.reset] })

/-- Modelled from the spec: the native `_owwritebyte` (`_ow_wb` over
`csrc/*`) writes one byte on the bus. -/
def owwritebyte (b : Nat) (s : OWState) : OWState :=
  { s with trace := s.trace ++ [.writeByte b] }

/-- Modelled from the spec: the native `_owreadbyte` (`_ow_rb` over
`csrc/*`) issues the byte-read command and returns the byte read off the
bus. -/
def owreadbyte (bus : Bus) (s : OWState) : Nat × OWState :=
  (bus.incoming s.rpos, { trace := s.trace ++ [.readByte], rpos := s.rpos + 1 })

/-- `DS2482.ow_write(data)`: writes each byte of `data` in order with
`_owwritebyte`. -/
def ow_write (data : List Nat) (s : OWState) : OWState :=
  data.foldl (fun st d => owwritebyte d st) s

/-- The loop of `DS2482.ow_read`: `n` successive `_owreadbyte` calls, the
results appended in order. -/
def ow_read_loop (bus : Bus) : Nat → OWState → List Nat × OWState
  | 0, s => ([], s)
  | Nat.succ k, s =>
    let r := owreadbyte bus s
    let rest := ow_read_loop bus k r.2
    (r.1 :: rest.1, rest.2)

/-- `DS2482.ow_read(n=1)`: a bytearray assembled from `n` successive
single-byte reads; the argument defaults to 1 as in the Python
signature. -/
def ow_read (bus : Bus) (s : OWState) (n : Nat := 1) : List Nat × OWState :=
  ow_read_loop bus n s

/-- `DS2482.ow_match_rom(rom)`: calls `ow_reset()`; on presence writes
the Match-ROM command byte `0x55` then the bytes of `rom` and returns
`True`; otherwise the function falls off its end, returning Python's
`None` (modelled as `Option.none`), with nothing written. -/
def ow_match_rom (bus : Bus) (rom : List Nat) (s : OWState) :
    Option Bool × OWState :=
  let r := owreset bus s
  if r.1 then
    let s2 := ow_write [0x55] r.2
    let s3 := ow_write rom s2
    (some true, s3)
  else
    (none, r.2)

/-- The method `DS2482.search_raw` as a Python callable: it is declared
`def search_raw(self):`, taking no argument besides `self`, so a call
passing any positional argument raises `TypeError` before the native
search runs; a correct no-argument call returns `_search_raw()`. -/
def search_raw_method (candidates : List (List Nat)) (args : List Nat) :
    Except PyErr (List (List Nat)) :=
  if args.length = 0 then .ok (searchRawNative candidates) else .error .typeError

/-- `DS2482.search(sc)`: evaluates `self.search_raw(self.ch)` — passing
the channel as a positional argument — then maps `sc` over the result,
collecting `sc(y)` for each discovered serial `y`.  Any exception from
the `search_raw` call propagates. -/
def search (candidates : List (List Nat)) (ch : Nat) (sc : List Nat → α) :
    Except PyErr (List α) :=
  match search_raw_method candidates [ch] with
  | .error e => .error e
  | .ok res => .ok (res.map sc)

/-- A Python value as passed to `OneWireSensor.__init__`: a string, a
`bytes`, a `bytearray`, or some value of another type (e.g. an integer or
`None`). -/
inductive PyVal where
  | str (s : List Char)
  | bytes (b : List Nat)
  | bytearray (b : List Nat)
  | int (n : Int)
  | noneV
deriving DecidableEq, Repr

/-- Python subscription `v[0]`: the first character (as a one-character
string) of a string, the first byte (as an integer) of a byte sequence;
`IndexError` when empty. -/
def pyIndex0 : PyVal → Except PyErr PyVal
  | .str [] => .error .indexError
  | .str (c :: _) => .ok (.str [c])
  | .bytes [] => .error .indexError
  | .bytes (b :: _) => .ok (.int b)
  | .bytearray [] => .error .indexError
  | .bytearray (b :: _) => .ok (.int b)
  | _ => .error .typeError

/-- A constructed `OneWireSensor` instance: its `serial` member (a byte
sequence), its `owbus` member (abstracted), and its `typeid` member —
the value of the expression `serial[0]` over the original constructor
argument, which for a string argument is a one-character string. -/
structure OneWireSensor where
  serial : List Nat
  owbus : Unit
  typeid : PyVal
deriving DecidableEq, Repr

/-- `OneWireSensor.__init__(serial, owbus)`: a string argument is parsed
with `s2b` into `self.serial`; a `bytes`/`bytearray` argument is stored
unchanged; any other type raises `TypeError` before any field is set.
Then `self.owbus` is set and `self.typeid` is set to `serial[0]` — the
subscription of the original argument, not of the converted
`self.serial`. -/
def OneWireSensor.init (serial : PyVal) (owbus : Unit) :
    Except PyErr OneWireSensor :=
  match serial with
  | .str s =>
    match s2b s with
    | .error e => .error e
    | .ok b =>
      match pyIndex0 (.str s) with
      | .error e => .error e
      | .ok t => .ok ⟨b, owbus, t⟩
  | .bytes b =>
    match pyIndex0 (.bytes b) with
    | .error e => .error e
    | .ok t => .ok ⟨b, owbus, t⟩
  | .bytearray b =>
    match pyIndex0 (.bytearray b) with
    | .error e => .error e
    | .ok t => .ok ⟨b, owbus, t⟩
  | _ => .error .typeError

/-- Whether a Python value is of one of the types `OneWireSensor.__init__`
accepts for its `serial` argument: `str`, `bytes` or `bytearray`. -/
def PyVal.isSerialType : PyVal → Bool
  | .str _ => true
  | .bytes _ => true
  | .bytearray _ => true
  | _ => false

/-! ## Lemmas about the hexadecimal codec -/

lemma hexDigit_ne_colon (m : Nat) (h : m < 16) : hexDigit m ≠ ':' := by
  interval_cases m <;> decide

lemma hexDigitVal_hexDigit (m : Nat) (h : m < 16) :
    hexDigitVal (hexDigit m) = some m := by
  interval_cases m <;> decide

lemma hexStr_ne_nil (n : Nat) : hexStr n ≠ [] := by
  rw [hexStr]
  split <;> simp

lemma colon_not_mem_hexStr (n : Nat) : ':' ∉ hexStr n := by
  induction n using Nat.strong_induction_on with
  | _ n ih =>
    rw [hexStr]
    split
    · next h =>
      simp only [List.mem_singleton]
      exact fun e => hexDigit_ne_colon n h e.symm
    · next h =>
      intro hmem
      rcases List.mem_append.1 hmem with h1 | h2
      · exact ih (n / 16) (Nat.div_lt_self (by omega) (by omega)) h1
      · simp only [List.mem_singleton] at h2
        exact hexDigit_ne_colon (n % 16) (Nat.mod_lt _ (by omega)) h2.symm

lemma pyIntHexLoop_append (s t : List Char) (acc : Nat) :
    pyIntHexLoop (s ++ t) acc =
      match pyIntHexLoop s acc with
      | .ok m => pyIntHexLoop t m
      | .error e => .error e := by
  induction s generalizing acc with
  | nil => simp [pyIntHexLoop]
  | cons c cs ih =>
    simp only [List.cons_append, pyIntHexLoop]
    cases hexDigitVal c with
    | none => rfl
    | some v => exact ih _

lemma pyIntHexLoop_hexStr (n : Nat) :
    ∀ acc, pyIntHexLoop (hexStr n) acc =
      .ok (acc * 16 ^ (hexStr n).length + n) := by
  induction n using Nat.strong_induction_on with
  | _ n ih =>
    intro acc
    rw [hexStr]
    split
    · next h =>
      simp [pyIntHexLoop, hexDigitVal_hexDigit n h]
    · next h =>
      rw [pyIntHexLoop_append, ih (n / 16) (Nat.div_lt_self (by omega) (by omega))]
      simp only [pyIntHexLoop, hexDigitVal_hexDigit (n % 16) (Nat.mod_lt _ (by omega)),
        List.length_append, List.length_singleton]
      have hn : n / 16 * 16 + n % 16 = n := by omega
      refine congrArg Except.ok ?_
      calc (acc * 16 ^ (hexStr (n / 16)).length + n / 16) * 16 + n % 16
          = acc * (16 ^ (hexStr (n / 16)).length * 16) + (n / 16 * 16 + n % 16) := by
            ring
        _ = acc * 16 ^ ((hexStr (n / 16)).length + 1) + n := by
            rw [hn, pow_succ]

lemma pyIntHex_hexStr (n : Nat) : pyIntHex (hexStr n) = .ok n := by
  have h2 := pyIntHexLoop_hexStr n 0
  cases hh : hexStr n with
  | nil => exact absurd hh (hexStr_ne_nil n)
  | cons c cs =>
    rw [hh] at h2
    simpa [pyIntHex] using h2

/-! ## Lemmas about split and join -/

lemma pySplit_ne_nil (sep : Char) (l : List Char) : pySplit sep l ≠ [] := by
  cases l with
  | nil => simp [pySplit]
  | cons c rest =>
    cases hh : pySplit sep rest with
    | nil =>
      simp only [pySplit, hh]
      split <;> simp
    | cons f fs =>
      simp only [pySplit, hh]
      split <;> simp

lemma pySplit_no_sep (sep : Char) (f : List Char) (h : sep ∉ f) :
    pySplit sep f = [f] := by
  induction f with
  | nil => rfl
  | cons c cs ih =>
    have hc : ¬(c = sep) := fun e => h (e ▸ List.mem_cons_self c cs)
    have hcs : sep ∉ cs := fun m => h (List.mem_cons_of_mem _ m)
    simp [pySplit, ih hcs, hc]

lemma pySplit_append_sep (sep : Char) (f t : List Char) (h : sep ∉ f) :
    pySplit sep (f ++ sep :: t) = f :: pySplit sep t := by
  induction f with
  | nil =>
    simp only [List.nil_append, pySplit]
    cases hh : pySplit sep t with
    | nil => exact absurd hh (pySplit_ne_nil sep t)
    | cons a as => simp
  | cons c cs ih =>
    have hc : ¬(c = sep) := fun e => h (e ▸ List.mem_cons_self c cs)
    have hcs : sep ∉ cs := fun m => h (List.mem_cons_of_mem _ m)
    simp only [List.cons_append, pySplit, List.append_eq]
    rw [ih hcs]
    simp [hc]

lemma pySplit_pyJoin (sep : Char) (fs : List (List Char)) (h1 : fs ≠ [])
    (h2 : ∀ f ∈ fs, sep ∉ f) : pySplit sep (pyJoin sep fs) = fs := by
  induction fs with
  | nil => exact absurd rfl h1
  | cons f rest ih =>
    cases rest with
    | nil =>
      simp only [pyJoin]
      exact pySplit_no_sep sep f (h2 f (List.mem_cons_self f []))
    | cons g gs =>
      have hj : pyJoin sep (f :: g :: gs) = f ++ sep :: pyJoin sep (g :: gs) := rfl
      rw [hj, pySplit_append_sep sep f _ (h2 f (List.mem_cons_self _ _)),
        ih (by simp) (fun x hx => h2 x (List.mem_cons_of_mem _ hx))]

lemma mapE_pyIntHex_hexStr (bs : List Nat) :
    mapE pyIntHex (bs.map (fun y => hexStr y)) = .ok bs := by
  induction bs with
  | nil => rfl
  | cons b rest ih => simp [mapE, pyIntHex_hexStr, ih]

/-- The codec roundtrip for any nonempty byte list: `s2b` undoes `b2s`
without any restriction on the number of bytes. -/
lemma s2b_b2s_ok (bs : List Nat) (h1 : bs ≠ []) (h2 : ∀ b ∈ bs, b < 256) :
    s2b (b2s bs) = .ok bs := by
  have hfields : bs.map (fun y => hex y []) = bs.map (fun y => hexStr y) := by
    simp [hex]
  have hne : bs.map (fun y => hexStr y) ≠ [] := by simpa using h1
  have hsep : ∀ f ∈ bs.map (fun y => hexStr y), ':' ∉ f := by
    intro f hf
    simp only [List.mem_map] at hf
    obtain ⟨y, _, rfl⟩ := hf
    exact colon_not_mem_hexStr y
  unfold s2b b2s
  rw [hfields, pySplit_pyJoin ':' _ hne hsep, mapE_pyIntHex_hexStr]
  show pyBytes bs = Except.ok bs
  unfold pyBytes
  rw [if_pos]
  simp only [List.all_eq_true, decide_eq_true_eq]
  exact h2

/-! ## Lemmas about the transport trace -/

lemma ow_write_trace (data : List Nat) (s : OWState) :
    ow_write data s = { s with trace := s.trace ++ data.map OWEvent.writeByte } := by
  induction data generalizing s with
  | nil => simp [ow_write]
  | cons d rest ih =>
    show ow_write rest (owwritebyte d s) = _
    rw [ih]
    simp [owwritebyte]

lemma ow_read_loop_spec (bus : Bus) (n : Nat) (s : OWState) :
    ow_read_loop bus n s =
      ((List.range n).map (fun i => bus.incoming (s.rpos + i)),
       { trace := s.trace ++ List.replicate n OWEvent.readByte,
         rpos := s.rpos + n }) := by
  induction n generalizing s with
  | zero => simp [ow_read_loop]
  | succ k ih =>
    simp only [ow_read_loop, owreadbyte]
    rw [ih]
    simp only [Prod.mk.injEq]
    refine ⟨?_, ?_⟩
    · rw [List.range_succ_eq_map, List.map_cons, List.map_map]
      simp only [Nat.add_zero]
      congr 1
      apply List.map_congr_left
      intro i _
      simp only [Function.comp]
      exact congrArg bus.incoming (by omega)
    · simp only [OWState.mk.injEq]
      exact ⟨by simp [List.replicate_succ], by omega⟩

/-! ## The claims -/

/-- C1: for every well-formed 8-byte identifier, converting it to its
textual form and parsing that text back yields the original identifier:
`s2b(b2s(serial)) == serial`. -/
theorem s2b_b2s_roundtrip (serial : List Nat) (h8 : serial.length = 8)
    (hb : ∀ b ∈ serial, b < 256) : s2b (b2s serial) = .ok serial :=
  s2b_b2s_ok serial (by intro e; rw [e] at h8; simp at h8) hb

/-- Witness for C1 at a concrete 8-byte identifier. -/
theorem s2b_b2s_roundtrip_witness :
    ([0x28, 0xff, 0x4a, 0x1c, 0x00, 0x00, 0x00, 0x3f] : List Nat).length = 8 ∧
    s2b (b2s [0x28, 0xff, 0x4a, 0x1c, 0x00, 0x00, 0x00, 0x3f]) =
      .ok [0x28, 0xff, 0x4a, 0x1c, 0x00, 0x00, 0x00, 0x3f] :=
  ⟨by decide, s2b_b2s_roundtrip _ (by decide) (by decide)⟩

/-- C2 counterexample: `s2b` accepts the 2-field string `"28:ff"` and
returns a 2-byte sequence instead of failing on the wrong field count. -/
theorem s2b_accepts_wrong_field_count :
    s2b (String.toList "28:ff") = .ok [0x28, 0xff] := rfl

/-- C2 (amended): `s2b` performs no field-count (or field-width)
validation — it accepts any nonempty sequence of colon-separated hex
fields with values below 256, producing one byte per field — and a
non-hex field makes it raise `ValueError` (there is no `FormatError` in
the module). -/
theorem s2b_no_field_count_validation (bs : List Nat) (h1 : bs ≠ [])
    (h2 : ∀ b ∈ bs, b < 256) :
    s2b (b2s bs) = .ok bs ∧
    s2b (String.toList "zz") = .error .valueError :=
  ⟨s2b_b2s_ok bs h1 h2, rfl⟩

/-- Witness for C2 (amended) at a 2-byte sequence: a 2-field string is
accepted even though its field count differs from 8. -/
theorem s2b_no_field_count_validation_witness :
    ([1, 2] : List Nat) ≠ [] ∧
    s2b (b2s [1, 2]) = .ok [1, 2] ∧
    s2b (String.toList "zz") = .error .valueError :=
  ⟨by decide, (s2b_no_field_count_validation [1, 2] (by decide) (by decide)).1,
    (s2b_no_field_count_validation [1, 2] (by decide) (by decide)).2⟩

/-- C3: every identifier in the result of the ROM search satisfies the
checksum invariant — it is 8 bytes long and its 8th byte equals
`checksum8` of its first 7 bytes; candidates failing the check are never
included. -/
theorem search_raw_checksum_invariant (cands : List (List Nat))
    (id : List Nat) (h : id ∈ searchRawNative cands) :
    id.length = 8 ∧ checksum8 (id.take 7) = id.getD 7 0 := by
  have hv : validROM id = true := (List.mem_filter.1 h).2
  simp only [validROM, Bool.and_eq_true, beq_iff_eq] at hv
  exact hv

set_option maxRecDepth 10000 in
/-- Witness for C3: a concrete valid identifier is kept by the search
filter and satisfies the checksum invariant. -/
theorem search_raw_checksum_invariant_witness :
    [0x28, 0xff, 0x4a, 0x1c, 0, 0, 0, 0x36] ∈
      searchRawNative [[0x28, 0xff, 0x4a, 0x1c, 0, 0, 0, 0x36],
        [1, 2, 3, 4, 5, 6, 7, 8]] ∧
    checksum8 (([0x28, 0xff, 0x4a, 0x1c, 0, 0, 0, 0x36] : List Nat).take 7) =
      ([0x28, 0xff, 0x4a, 0x1c, 0, 0, 0, 0x36] : List Nat).getD 7 0 :=
  ⟨by decide,
    (search_raw_checksum_invariant
      [[0x28, 0xff, 0x4a, 0x1c, 0, 0, 0, 0x36], [1, 2, 3, 4, 5, 6, 7, 8]]
      [0x28, 0xff, 0x4a, 0x1c, 0, 0, 0, 0x36] (by decide)).2⟩

/-- C4 counterexample: on a bus with no presence pulse, `ow_match_rom`
returns Python's `None` (modelled `Option.none`), which is not the
boolean `False`. -/
theorem ow_match_rom_none_counterexample :
    (ow_match_rom (Bus.mk false (fun _ => 0))
      [0x28, 0xff, 0x4a, 0x1c, 0, 0, 0, 0x36] ⟨[], 0⟩).1 = none ∧
    (none : Option Bool) ≠ some false :=
  ⟨rfl, by simp⟩

/-- C4 (amended): `ow_match_rom` returns `True` exactly when the
preceding reset observed a presence pulse; when no presence is detected
it returns `None` (a falsy value, not the boolean `False`) without
raising and without writing any bytes — the trace grows by the reset
event only. -/
theorem ow_match_rom_result (bus : Bus) (rom : List Nat) (s : OWState) :
    ((ow_match_rom bus rom s).1 = some true ↔ bus.presence = true) ∧
    (bus.presence = false →
      (ow_match_rom bus rom s).1 = none ∧
      (ow_match_rom bus rom s).2.trace = s.trace ++ [OWEvent.reset]) := by
  cases hp : bus.presence <;> simp [ow_match_rom, owreset, hp]

/-- Witness for C4 (amended) on a concrete bus with no presence. -/
theorem ow_match_rom_result_witness :
    (ow_match_rom (Bus.mk false (fun _ => 0))
      [1, 2, 3, 4, 5, 6, 7, 8] ⟨[], 0⟩).1 = none ∧
    (ow_match_rom (Bus.mk false (fun _ => 0))
      [1, 2, 3, 4, 5, 6, 7, 8] ⟨[], 0⟩).2.trace = [] ++ [OWEvent.reset] :=
  ⟨((ow_match_rom_result (Bus.mk false (fun _ => 0))
      [1, 2, 3, 4, 5, 6, 7, 8] ⟨[], 0⟩).2 rfl).1,
    ((ow_match_rom_result (Bus.mk false (fun _ => 0))
      [1, 2, 3, 4, 5, 6, 7, 8] ⟨[], 0⟩).2 rfl).2⟩

/-- C5: with presence detected, `ow_match_rom` followed by a single-byte
`ow_read` issues exactly one reset, one Match-ROM command byte `0x55`,
the 8 identifier bytes in order, then the byte-read command, in that
order against the transport. -/
theorem match_rom_then_read_trace (bus : Bus) (rom : List Nat)
    (s : OWState) (hp : bus.presence = true) (_hl : rom.length = 8) :
    (ow_read bus (ow_match_rom bus rom s).2).2.trace =
      s.trace ++ OWEvent.reset :: OWEvent.writeByte 0x55 ::
        (rom.map OWEvent.writeByte ++ [OWEvent.readByte]) := by
  have h1 : ow_match_rom bus rom s =
      (some true, ow_write rom (ow_write [0x55]
        { s with trace := s.trace ++ [OWEvent.reset] })) := by
    simp [ow_match_rom, owreset, hp]
  rw [h1]
  rw [ow_write_trace, ow_write_trace]
  show (ow_read_loop bus 1 _).2.trace = _
  rw [ow_read_loop_spec]
  simp

/-- Witness for C5: the concrete transport trace for a concrete
identifier on a bus with presence. -/
theorem match_rom_then_read_trace_witness :
    (Bus.mk true (fun _ => 0)).presence = true ∧
    ([0x28, 0xff, 0x4a, 0x1c, 0, 0, 0, 0x36] : List Nat).length = 8 ∧
    (ow_read (Bus.mk true (fun _ => 0))
      (ow_match_rom (Bus.mk true (fun _ => 0))
        [0x28, 0xff, 0x4a, 0x1c, 0, 0, 0, 0x36] ⟨[], 0⟩).2).2.trace =
      [OWEvent.reset, OWEvent.writeByte 0x55, OWEvent.writeByte 0x28,
       OWEvent.writeByte 0xff, OWEvent.writeByte 0x4a, OWEvent.writeByte 0x1c,
       OWEvent.writeByte 0, OWEvent.writeByte 0, OWEvent.writeByte 0,
       OWEvent.writeByte 0x36, OWEvent.readByte] :=
  ⟨rfl, by decide,
    by simpa using (match_rom_then_read_trace (Bus.mk true (fun _ => 0))
      [0x28, 0xff, 0x4a, 0x1c, 0, 0, 0, 0x36] ⟨[], 0⟩ rfl (by decide))⟩

/-- C7 (code bug evaluation): constructing a `OneWireSensor` from the
string form of an identifier stores the parsed 8 bytes in `serial` but
sets `typeid` to the first character of the string — the one-character
string `"2"` — not to the family byte `0x28`. -/
theorem onewiresensor_string_typeid :
    OneWireSensor.init (.str (String.toList "28:ff:4a:1c:00:00:00:3f")) () =
      .ok ⟨[0x28, 0xff, 0x4a, 0x1c, 0x00, 0x00, 0x00, 0x3f], (), .str ['2']⟩ ∧
    PyVal.str ['2'] ≠ PyVal.int 0x28 :=
  ⟨rfl, by simp⟩

/-- C8 (code bug evaluation): `DS2482.search` passes the channel as a
positional argument to `search_raw`, which takes none, so every call
raises `TypeError` instead of returning the mapped list. -/
theorem search_always_typeerror {α : Type} (cands : List (List Nat))
    (ch : Nat) (sc : List Nat → α) :
    search cands ch sc = .error .typeError := by
  simp [search, search_raw_method]

/-- C9: constructing a `OneWireSensor` with a serial that is neither a
string nor a `bytes`/`bytearray` raises `TypeError` with no instance
constructed; a nonempty `bytes` or `bytearray` serial is stored unchanged
as the `serial` member. -/
theorem onewiresensor_init_type_check :
    (∀ v : PyVal, v.isSerialType = false →
      OneWireSensor.init v () = .error .typeError) ∧
    (∀ b : List Nat, b ≠ [] →
      OneWireSensor.init (.bytes b) () = .ok ⟨b, (), .int (b.headD 0)⟩ ∧
      OneWireSensor.init (.bytearray b) () = .ok ⟨b, (), .int (b.headD 0)⟩) := by
  constructor
  · intro v hv
    cases v with
    | str s => simp [PyVal.isSerialType] at hv
    | bytes b => simp [PyVal.isSerialType] at hv
    | bytearray b => simp [PyVal.isSerialType] at hv
    | int n => rfl
    | noneV => rfl
  · intro b hb
    cases b with
    | nil => exact absurd rfl hb
    | cons c r => exact ⟨rfl, rfl⟩

/-- Witness for C9 at a non-serial-typed value and a concrete byte
sequence. -/
theorem onewiresensor_init_type_check_witness :
    OneWireSensor.init (.int 5) () = .error .typeError ∧
    OneWireSensor.init (.bytes [1, 2]) () = .ok ⟨[1, 2], (), .int 1⟩ :=
  ⟨onewiresensor_init_type_check.1 (.int 5) rfl,
    (onewiresensor_init_type_check.2 [1, 2] (by decide)).1⟩

/-- C10: `ow_read n` returns a byte sequence of length exactly `n`,
assembled from `n` successive single-byte reads in bus order, and with
no argument it reads exactly one byte (the Python default `n=1`). -/
theorem ow_read_spec (bus : Bus) (s : OWState) (n : Nat) :
    (ow_read bus s n).1.length = n ∧
    (ow_read bus s n).1 =
      (List.range n).map (fun i => bus.incoming (s.rpos + i)) ∧
    (ow_read bus s n).2.trace = s.trace ++ List.replicate n OWEvent.readByte ∧
    ow_read bus s = ow_read bus s 1 := by
  have h := ow_read_loop_spec bus n s
  refine ⟨?_, ?_, ?_, rfl⟩ <;> simp [ow_read, h]
